import Mathlib

/-!
# Verification of `scripts/validate_docs_naming.py`

A shallow embedding of the documentation-file-name validator.  The
script checks every non-directory entry of a `docs` directory against
the regular expression

  `^(META|ARCH|SPEC|IMPL|QA)-[A-Za-z]+-[A-Za-z]+\.md$`

via Python's `re.match`, skipping a fixed list of exempt ("redirect")
file names, and exits with code `0` when no invalid name remains and
`1` when the directory is missing or some invalid name was found.

The embedding models Python semantics faithfully.  In particular the
regex metacharacter `$` (without `re.MULTILINE`) matches at the end of
the string *or just before one trailing newline*, so
`validate_filename "SPEC-a-b.md\n"` is `True` in Python; the model
reproduces this (`pyMatch`).

The five alternation branches `META|ARCH|SPEC|IMPL|QA` start with five
distinct characters, so at most one branch can match at position 0 and
the left-to-right alternation is equivalent to `List.any`.  Each
`[A-Za-z]+` is followed in the pattern by a character that is not an
ASCII letter (`-` resp. `.`), so the greedy/backtracking semantics of
`+` coincides with taking the maximal letter run (`List.takeWhile`):
any shorter match would be followed by a letter where the pattern
demands a non-letter.
-/

namespace DocsNaming

/-- ASCII letter class `[A-Za-z]` of the regex. -/
def isAsciiLetter (c : Char) : Bool :=
  (('A' ≤ c) && (c ≤ 'Z')) || (('a' ≤ c) && (c ≤ 'z'))

/-- The five literal tag alternatives `META|ARCH|SPEC|IMPL|QA`
of the pattern, in source order. -/
def tagList : List (List Char) :=
  [['M', 'E', 'T', 'A'], ['A', 'R', 'C', 'H'], ['S', 'P', 'E', 'C'],
   ['I', 'M', 'P', 'L'], ['Q', 'A']]

/-- Matches `[A-Za-z]+-[A-Za-z]+\.md` against the whole of `cs`
(the part of the pattern after `TAG-`), ending exactly at the end of
`cs`.  Maximal letter runs are taken, which agrees with the regex
because each `[A-Za-z]+` is followed by a non-letter in the pattern. -/
def matchTail (cs : List Char) : Bool :=
  match cs.takeWhile isAsciiLetter, cs.dropWhile isAsciiLetter with
  | _ :: _, '-' :: r2 =>
      (match r2.takeWhile isAsciiLetter with
       | [] => false
       | _ :: _ => true)
      && decide (r2.dropWhile isAsciiLetter = ['.', 'm', 'd'])
  | _, _ => false

/-- Full match of `(META|ARCH|SPEC|IMPL|QA)-[A-Za-z]+-[A-Za-z]+\.md`
against the whole of `cs` (the `$` taken as end of string). -/
def fullCore (cs : List Char) : Bool :=
  tagList.any fun t =>
    decide (cs.take (t.length + 1) = t ++ ['-']) &&
      matchTail (cs.drop (t.length + 1))

/-- `re.match(pattern, ·)` for the anchored pattern, with Python's `$`
semantics: the pattern body must end at the end of the string, or just
before a single trailing newline. -/
def pyMatch (cs : List Char) : Bool :=
  fullCore cs ||
    (decide (cs.getLast? = some '\n') && fullCore cs.dropLast)

/-- `validate_filename` of the script:
`bool(re.match(pattern, name))`. -/
def validate_filename (name : String) : Bool :=
  pyMatch name.data

/-- `redirect_files` of the script: the exemption set, in source
order. -/
def redirect_files : List String :=
  ["00-document-meta.md",
   "01-core-principles.md",
   "02-system-architecture.md",
   "02b-state-machine-specification.md",
   "03-contracts.md",
   "04-testing-architecture.md",
   "05-implementation-plan.md",
   "06-json-example.md",
   "文档导航.md",
   "模块化说明方案.md"]

/-- One entry of the directory listing returned by `os.listdir`,
together with the `os.path.isdir` classification of that entry. -/
structure Entry where
  name : String
  isDir : Bool
deriving DecidableEq, Repr

/-- One line of per-file output emitted inside the scan loop. -/
inductive Event where
  | skipped (name : String)
  | validEv (name : String)
  | invalidEv (name : String)
deriving DecidableEq, Repr

/-- The mutable state of the loop in `main`: `total_files`,
`valid_files`, `invalid_files`, plus the number of exempt files that
were skipped (the count of `skipped` lines printed) and the trace of
per-file output lines. -/
structure ScanResult where
  total : Nat
  valid : Nat
  invalid_files : List String
  exempt : Nat
  events : List Event
deriving DecidableEq, Repr

/-- Loop state at entry to the `for` loop. -/
def initResult : ScanResult :=
  { total := 0, valid := 0, invalid_files := [], exempt := 0, events := [] }

/-- One iteration of the `for filename in os.listdir(docs_dir)` loop. -/
def step (st : ScanResult) (e : Entry) : ScanResult :=
  if e.isDir then st
  else
    let st1 := { st with total := st.total + 1 }
    if e.name ∈ redirect_files then
      { st1 with exempt := st1.exempt + 1,
                 events := st1.events ++ [Event.skipped e.name] }
    else if validate_filename e.name then
      { st1 with valid := st1.valid + 1,
                 events := st1.events ++ [Event.validEv e.name] }
    else
      { st1 with invalid_files := st1.invalid_files ++ [e.name],
                 events := st1.events ++ [Event.invalidEv e.name] }

/-- The loop, folded over the remaining listing. -/
def scanFrom (st : ScanResult) : List Entry → ScanResult
  | [] => st
  | e :: es => scanFrom (step st e) es

/-- The whole scan of `main` over a directory listing. -/
def scan (es : List Entry) : ScanResult :=
  scanFrom initResult es

/-- What the filesystem holds at the resolved `docs_dir` path:
nothing, a non-directory entry, or a directory with a listing. -/
inductive PathState where
  | absent : PathState
  | file : PathState
  | dir (entries : List Entry) : PathState

/-- `os.path.exists(docs_dir)`: true whenever anything is at the
path, directory or not. -/
def pathExists : PathState → Bool
  | .absent => false
  | .file => true
  | .dir _ => true

/-- `os.listdir(docs_dir)`: the listing when the path is a directory,
`none` (a raised `NotADirectoryError` / `FileNotFoundError`) otherwise. -/
def listdir : PathState → Option (List Entry)
  | .dir es => some es
  | _ => none

/-- Outcome of a run of `main`: a `sys.exit` with the given code
(carrying the scan result when a scan happened, `none` when the
missing-directory branch exited before the loop), or an unhandled
exception escaping `main`. -/
inductive RunResult where
  | exited (code : Nat) (scanned : Option ScanResult) : RunResult
  | fault : RunResult
deriving DecidableEq

/-- `main` of the script: existence check, scan, summary, exit. -/
def run (ps : PathState) : RunResult :=
  if pathExists ps = false then
    RunResult.exited 1 none
  else
    match listdir ps with
    | none => RunResult.fault
    | some es =>
        let r := scan es
        RunResult.exited (if r.invalid_files = [] then 0 else 1) (some r)

/-- Modelled from the spec (§3 Data Model, "Naming Pattern"): the
entire name is one of the five tags, a hyphen, a nonempty run of ASCII
letters, a hyphen, a nonempty run of ASCII letters, then `.md`, with
no other characters before or after.  Stated as a structural
decomposition, independent of the matcher above. -/
def SpecFullMatchL (cs : List Char) : Prop :=
  ∃ t a b : List Char,
    t ∈ tagList ∧
    a ≠ [] ∧ (∀ c ∈ a, isAsciiLetter c = true) ∧
    b ≠ [] ∧ (∀ c ∈ b, isAsciiLetter c = true) ∧
    cs = t ++ '-' :: (a ++ '-' :: (b ++ ['.', 'm', 'd']))

/-! ## The matcher agrees with the structural decomposition -/

lemma takeWhile_letters (a : List Char) (c : Char) (rest : List Char)
    (ha : ∀ x ∈ a, isAsciiLetter x = true) (hc : isAsciiLetter c = false) :
    (a ++ c :: rest).takeWhile isAsciiLetter = a ∧
      (a ++ c :: rest).dropWhile isAsciiLetter = c :: rest := by
  induction a with
  | nil => simp [List.takeWhile_cons, List.dropWhile_cons, hc]
  | cons x xs ih =>
    have hx : isAsciiLetter x = true := ha x (by simp)
    have ihh := ih fun y hy => ha y (by simp [hy])
    simp [List.takeWhile_cons, List.dropWhile_cons, hx, ihh.1, ihh.2]

lemma matchTail_iff (cs : List Char) :
    matchTail cs = true ↔
      ∃ a b : List Char,
        a ≠ [] ∧ (∀ c ∈ a, isAsciiLetter c = true) ∧
        b ≠ [] ∧ (∀ c ∈ b, isAsciiLetter c = true) ∧
        cs = a ++ '-' :: (b ++ ['.', 'm', 'd']) := by
  constructor
  · intro h
    unfold matchTail at h
    split at h
    case _ x xs r2 htake hdrop =>
      rw [Bool.and_eq_true, decide_eq_true_eq] at h
      obtain ⟨hb, hdropeq⟩ := h
      have hcs : cs = (x :: xs) ++ '-' :: r2 := by
        rw [← htake, ← hdrop, List.takeWhile_append_dropWhile]
      have hr2 : r2 = r2.takeWhile isAsciiLetter ++ ['.', 'm', 'd'] := by
        rw [← hdropeq, List.takeWhile_append_dropWhile]
      refine ⟨x :: xs, r2.takeWhile isAsciiLetter, by simp, ?_, ?_, ?_, ?_⟩
      · intro c hc
        exact List.mem_takeWhile_imp (by rw [htake]; exact hc)
      · intro hnil
        rw [hnil] at hb
        simp at hb
      · intro c hc
        exact List.mem_takeWhile_imp hc
      · rw [hcs, ← hr2]
    case _ => exact absurd h (by simp)
  · rintro ⟨a, b, ha, hal, hb, hbl, rfl⟩
    have h1 := takeWhile_letters a '-' (b ++ ['.', 'm', 'd']) hal (by decide)
    have h2 := takeWhile_letters b '.' ['m', 'd'] hbl (by decide)
    unfold matchTail
    rw [h1.1, h1.2]
    obtain ⟨x, xs, rfl⟩ : ∃ x xs, a = x :: xs := by
      cases a with
      | nil => exact absurd rfl ha
      | cons x xs => exact ⟨x, xs, rfl⟩
    show ((match (b ++ ['.', 'm', 'd']).takeWhile isAsciiLetter with
        | [] => false
        | _ :: _ => true)
      && decide ((b ++ ['.', 'm', 'd']).dropWhile isAsciiLetter
          = ['.', 'm', 'd'])) = true
    rw [show b ++ ['.', 'm', 'd'] = b ++ '.' :: ['m', 'd'] from rfl, h2.1, h2.2]
    obtain ⟨y, ys, rfl⟩ : ∃ y ys, b = y :: ys := by
      cases b with
      | nil => exact absurd rfl hb
      | cons y ys => exact ⟨y, ys, rfl⟩
    simp

lemma fullCore_iff (cs : List Char) :
    fullCore cs = true ↔ SpecFullMatchL cs := by
  unfold fullCore SpecFullMatchL
  rw [List.any_eq_true]
  constructor
  · rintro ⟨t, ht, hmatch⟩
    rw [Bool.and_eq_true, decide_eq_true_eq] at hmatch
    obtain ⟨htake, htail⟩ := hmatch
    obtain ⟨a, b, ha, hal, hb, hbl, hrest⟩ := (matchTail_iff _).mp htail
    refine ⟨t, a, b, ht, ha, hal, hb, hbl, ?_⟩
    have hcs := (List.take_append_drop (t.length + 1) cs).symm
    rw [htake, hrest] at hcs
    rw [hcs]
    simp
  · rintro ⟨t, a, b, ht, ha, hal, hb, hbl, rfl⟩
    refine ⟨t, ht, ?_⟩
    rw [Bool.and_eq_true, decide_eq_true_eq]
    have hform : t ++ '-' :: (a ++ '-' :: (b ++ ['.', 'm', 'd']))
        = (t ++ ['-']) ++ (a ++ '-' :: (b ++ ['.', 'm', 'd'])) := by simp
    constructor
    · rw [hform]
      exact List.take_left' (by simp)
    · rw [hform, List.drop_left' (by simp)]
      exact (matchTail_iff _).mpr ⟨a, b, ha, hal, hb, hbl, rfl⟩

/-- Characterisation of `validate_filename`: true exactly on full
matches of the pattern and on full matches followed by one trailing
newline (Python's `$`). -/
lemma validate_iff (name : String) :
    validate_filename name = true ↔
      SpecFullMatchL name.data ∨
        ∃ u, name.data = u ++ ['\n'] ∧ SpecFullMatchL u := by
  unfold validate_filename pyMatch
  rw [Bool.or_eq_true, Bool.and_eq_true, decide_eq_true_eq, fullCore_iff]
  constructor
  · rintro (h | ⟨hlast, hcore⟩)
    · exact Or.inl h
    · obtain ⟨u, hu⟩ := List.getLast?_eq_some_iff.mp hlast
      rw [hu, List.dropLast_concat, fullCore_iff] at hcore
      exact Or.inr ⟨u, hu, hcore⟩
  · rintro (h | ⟨u, hu, hcore⟩)
    · exact Or.inl h
    · refine Or.inr ⟨?_, ?_⟩
      · rw [hu]
        exact List.getLast?_concat u
      · rw [hu, List.dropLast_concat, fullCore_iff]
        exact hcore

/-- Every name with the spec shape ends in the character `d`. -/
lemma SpecFullMatchL_getLast (cs : List Char) (h : SpecFullMatchL cs) :
    cs.getLast? = some 'd' := by
  obtain ⟨t, a, b, _, _, _, _, _, rfl⟩ := h
  rw [show t ++ '-' :: (a ++ '-' :: (b ++ ['.', 'm', 'd']))
      = (t ++ '-' :: (a ++ '-' :: (b ++ ['.', 'm']))) ++ ['d'] by simp,
    List.getLast?_concat]

/-! ## Characterisation of the scan loop -/

/-- Entries counted into `total_files`: every non-directory child. -/
def countedFile (e : Entry) : Bool := !e.isDir

/-- Non-directory children whose name is in the exemption set. -/
def exemptFile (e : Entry) : Bool :=
  !e.isDir && decide (e.name ∈ redirect_files)

/-- Non-directory, non-exempt children passing the name check. -/
def validFile (e : Entry) : Bool :=
  !e.isDir && !decide (e.name ∈ redirect_files) && validate_filename e.name

/-- Non-directory, non-exempt children failing the name check. -/
def invalidFile (e : Entry) : Bool :=
  !e.isDir && !decide (e.name ∈ redirect_files) && !validate_filename e.name

/-- The output line the loop prints for one entry, if any. -/
def eventOf (e : Entry) : Option Event :=
  if e.isDir then none
  else if e.name ∈ redirect_files then some (Event.skipped e.name)
  else if validate_filename e.name then some (Event.validEv e.name)
  else some (Event.invalidEv e.name)

lemma scanFrom_spec (es : List Entry) : ∀ st : ScanResult,
    (scanFrom st es).total = st.total + (es.filter countedFile).length ∧
    (scanFrom st es).valid = st.valid + (es.filter validFile).length ∧
    (scanFrom st es).exempt = st.exempt + (es.filter exemptFile).length ∧
    (scanFrom st es).invalid_files
      = st.invalid_files ++ (es.filter invalidFile).map Entry.name ∧
    (scanFrom st es).events = st.events ++ es.filterMap eventOf := by
  induction es with
  | nil => intro st; simp [scanFrom]
  | cons e es ih =>
    intro st
    rw [show scanFrom st (e :: es) = scanFrom (step st e) es from rfl]
    obtain ⟨h1, h2, h3, h4, h5⟩ := ih (step st e)
    rw [h1, h2, h3, h4, h5]
    by_cases hd : e.isDir = true
    · simp [step, hd, countedFile, validFile, exemptFile, invalidFile, eventOf]
    · rw [Bool.not_eq_true] at hd
      by_cases hr : e.name ∈ redirect_files
      · simp [step, hd, hr, countedFile, validFile, exemptFile, invalidFile,
          eventOf, Nat.add_assoc, Nat.add_comm, Nat.add_left_comm]
      · by_cases hv : validate_filename e.name = true
        · simp [step, hd, hr, hv, countedFile, validFile, exemptFile,
            invalidFile, eventOf, Nat.add_assoc, Nat.add_comm, Nat.add_left_comm]
        · rw [Bool.not_eq_true] at hv
          simp [step, hd, hr, hv, countedFile, validFile, exemptFile,
            invalidFile, eventOf, Nat.add_assoc, Nat.add_comm, Nat.add_left_comm]

lemma scan_total (es : List Entry) :
    (scan es).total = (es.filter countedFile).length := by
  simpa [scan, initResult] using (scanFrom_spec es initResult).1

lemma scan_valid (es : List Entry) :
    (scan es).valid = (es.filter validFile).length := by
  simpa [scan, initResult] using (scanFrom_spec es initResult).2.1

lemma scan_exempt (es : List Entry) :
    (scan es).exempt = (es.filter exemptFile).length := by
  simpa [scan, initResult] using (scanFrom_spec es initResult).2.2.1

lemma scan_invalid_files (es : List Entry) :
    (scan es).invalid_files = (es.filter invalidFile).map Entry.name := by
  simpa [scan, initResult] using (scanFrom_spec es initResult).2.2.2.1

lemma scan_events (es : List Entry) :
    (scan es).events = es.filterMap eventOf := by
  simpa [scan, initResult] using (scanFrom_spec es initResult).2.2.2.2

/-- Each counted entry is exactly one of valid, invalid, exempt. -/
lemma counted_partition (es : List Entry) :
    (es.filter countedFile).length
      = (es.filter validFile).length + (es.filter invalidFile).length
          + (es.filter exemptFile).length := by
  induction es with
  | nil => simp
  | cons e es ih =>
    by_cases hd : e.isDir = true
    · simp [List.filter_cons, countedFile, validFile, exemptFile, invalidFile,
        hd, ih]
    · rw [Bool.not_eq_true] at hd
      by_cases hr : e.name ∈ redirect_files
      · simp [List.filter_cons, countedFile, validFile, exemptFile,
          invalidFile, hd, hr, ih]
        omega
      · by_cases hv : validate_filename e.name = true
        · simp [List.filter_cons, countedFile, validFile, exemptFile,
            invalidFile, hd, hr, hv, ih]
          omega
        · rw [Bool.not_eq_true] at hv
          simp [List.filter_cons, countedFile, validFile, exemptFile,
            invalidFile, hd, hr, hv, ih]
          omega

/-! ## Claims about `validate_filename` -/

/-- C1 (counterexample): the claim "`validate_filename name` is true
iff the entire string matches the pattern with no other characters
before or after" fails at `"QA-ab-cd.md\n"`: the extra trailing
newline means the whole string does not have the pattern shape, yet
`validate_filename` returns true. -/
theorem validate_filename_cex :
    validate_filename "QA-ab-cd.md\n" = true ∧
      ¬ SpecFullMatchL ("QA-ab-cd.md\n").data := by
  refine ⟨by decide, fun h => ?_⟩
  have h2 := SpecFullMatchL_getLast _ h
  revert h2
  decide

/-- C1 (amended): `validate_filename name` is true iff the entire
string matches the Naming Pattern anchored at both ends, or the
string is such a full match followed by exactly one trailing newline
(Python's `$` also matches just before a final newline). -/
theorem validate_filename_amended (name : String) :
    validate_filename name = true ↔
      SpecFullMatchL name.data ∨
        ∃ u, name.data = u ++ ['\n'] ∧ SpecFullMatchL u :=
  validate_iff name

/-- C5 (counterexample): the claim "every name deviating from the
pattern in any single way — including extra trailing characters —
is rejected" fails at `"META-x-y.md\n"`: it deviates only by one
extra trailing character, yet `validate_filename` returns true. -/
theorem deviating_names_cex :
    validate_filename "META-x-y.md\n" = true ∧
      ¬ SpecFullMatchL ("META-x-y.md\n").data := by
  refine ⟨by decide, fun h => ?_⟩
  have h2 := SpecFullMatchL_getLast _ h
  revert h2
  decide

/-- C5 (amended): every name that is not a full pattern match and is
not a full match followed by a single trailing newline is rejected by
`validate_filename`; in particular the single-deviation families —
wrong tag (including lowercase `spec-a-b.md`), missing hyphen, digit
or punctuation inside a letter segment, wrong extension, extra
leading or extra (non-newline) trailing characters — are rejected. -/
theorem deviating_names_rejected :
    (∀ name : String,
      ¬ SpecFullMatchL name.data →
      ¬ (∃ u, name.data = u ++ ['\n'] ∧ SpecFullMatchL u) →
      validate_filename name = false) ∧
    validate_filename "spec-a-b.md" = false ∧
    validate_filename "TEST-a-b.md" = false ∧
    validate_filename "SPECab.md" = false ∧
    validate_filename "SPEC-a1-b.md" = false ∧
    validate_filename "SPEC-a!-b.md" = false ∧
    validate_filename "SPEC-a-b.txt" = false ∧
    validate_filename "xSPEC-a-b.md" = false ∧
    validate_filename "SPEC-a-b.mdx" = false := by
  refine ⟨fun name h1 h2 => ?_, by decide, by decide, by decide, by decide,
    by decide, by decide, by decide, by decide⟩
  rw [Bool.eq_false_iff]
  intro h
  rcases (validate_iff name).mp h with h' | h'
  · exact h1 h'
  · exact h2 h'

/-- C5 (witness): the general part of the amended claim applied to
the concrete deviating name `"README.md"`. -/
theorem deviating_names_rejected_witness :
    validate_filename "README.md" = false := by
  refine deviating_names_rejected.1 "README.md" (fun h => ?_) (fun h => ?_)
  · have h2 := (fullCore_iff _).mpr h
    revert h2
    decide
  · obtain ⟨u, hu, -⟩ := h
    have h2 : ("README.md").data.getLast? = some '\n' := by
      rw [hu]
      exact List.getLast?_concat u
    revert h2
    decide

/-- C8: `validate_filename` accepts `"SPEC-a-b.md\n"` although the
whole string is not a full match of the pattern — only the part
before the trailing newline is — because Python's `$` also matches
immediately before a trailing newline. -/
theorem trailing_newline_true :
    validate_filename "SPEC-a-b.md\n" = true ∧
      ¬ SpecFullMatchL ("SPEC-a-b.md\n").data ∧
      SpecFullMatchL ("SPEC-a-b.md").data := by
  refine ⟨by decide, fun h => ?_, (fullCore_iff _).mp (by decide)⟩
  have h2 := SpecFullMatchL_getLast _ h
  revert h2
  decide

/-- C9: every one of the ten exemption-set names fails the pattern
check, and in any run an exempt name is never classified valid: the
exempt and valid classifications are disjoint, and no exemption entry
shadows a name that would have passed the pattern. -/
theorem exempt_names_invalid :
    (∀ name ∈ redirect_files, validate_filename name = false) ∧
    (∀ (es : List Entry) (e : Entry), e ∈ es → e.name ∈ redirect_files →
      Event.validEv e.name ∉ (scan es).events) := by
  refine ⟨by decide, fun es e he hr hmem => ?_⟩
  rw [scan_events] at hmem
  obtain ⟨e', he', heq⟩ := List.mem_filterMap.mp hmem
  by_cases hd : e'.isDir = true
  · simp [eventOf, hd] at heq
  · by_cases hr2 : e'.name ∈ redirect_files
    · simp [eventOf, hd, hr2] at heq
    · by_cases hv : validate_filename e'.name = true
      · simp [eventOf, hd, hr2, hv] at heq
        exact hr2 (by rw [heq]; exact hr)
      · simp [eventOf, hd, hr2, hv] at heq

/-- C9 (witness): the two parts applied to the first and the ninth
exemption entry. -/
theorem exempt_names_invalid_witness :
    validate_filename "00-document-meta.md" = false ∧
      Event.validEv "文档导航.md" ∉
        (scan [{ name := "文档导航.md", isDir := false }]).events :=
  ⟨exempt_names_invalid.1 "00-document-meta.md" (by decide),
   exempt_names_invalid.2 _ { name := "文档导航.md", isDir := false }
     (by decide) (by decide)⟩

/-! ## Claims about the scan loop -/

/-- C3: after any scan, `total = valid + invalid + exempt_count`,
where `total` counts every non-directory child, `valid` the
non-exempt names passing the pattern, `invalid` the non-exempt names
failing it, and `exempt_count` the skipped exemption-set children. -/
theorem scan_counters_consistent (es : List Entry) :
    (scan es).total
      = (scan es).valid + (scan es).invalid_files.length
          + (scan es).exempt := by
  rw [scan_total, scan_valid, scan_exempt, scan_invalid_files,
    List.length_map]
  exact counted_partition es

/-- C4: a non-directory child whose name is in the exemption set is
reported as skipped, never enters the invalid-name list, and is never
reported (hence never tallied) as valid or invalid, regardless of the
shape of its name. -/
theorem exempt_skipped (es : List Entry) (e : Entry) (he : e ∈ es)
    (hd : e.isDir = false) (hr : e.name ∈ redirect_files) :
    Event.skipped e.name ∈ (scan es).events ∧
      e.name ∉ (scan es).invalid_files ∧
      Event.validEv e.name ∉ (scan es).events ∧
      Event.invalidEv e.name ∉ (scan es).events := by
  refine ⟨?_, ?_, ?_, ?_⟩
  · rw [scan_events]
    exact List.mem_filterMap.mpr ⟨e, he, by simp [eventOf, hd, hr]⟩
  · rw [scan_invalid_files]
    intro hmem
    obtain ⟨e', he', heq⟩ := List.mem_map.mp hmem
    have h2 := (List.mem_filter.mp he').2
    unfold invalidFile at h2
    simp only [Bool.and_eq_true, Bool.not_eq_true', decide_eq_false_iff_not] at h2
    exact h2.1.2 (by rw [heq]; exact hr)
  · rw [scan_events]
    intro hmem
    obtain ⟨e', he', heq⟩ := List.mem_filterMap.mp hmem
    by_cases hd2 : e'.isDir = true
    · simp [eventOf, hd2] at heq
    · by_cases hr2 : e'.name ∈ redirect_files
      · simp [eventOf, hd2, hr2] at heq
      · by_cases hv : validate_filename e'.name = true
        · simp [eventOf, hd2, hr2, hv] at heq
          exact hr2 (by rw [heq]; exact hr)
        · simp [eventOf, hd2, hr2, hv] at heq
  · rw [scan_events]
    intro hmem
    obtain ⟨e', he', heq⟩ := List.mem_filterMap.mp hmem
    by_cases hd2 : e'.isDir = true
    · simp [eventOf, hd2] at heq
    · by_cases hr2 : e'.name ∈ redirect_files
      · simp [eventOf, hd2, hr2] at heq
      · by_cases hv : validate_filename e'.name = true
        · simp [eventOf, hd2, hr2, hv] at heq
        · simp [eventOf, hd2, hr2, hv] at heq
          exact hr2 (by rw [heq]; exact hr)

/-- C4 (witness): the bypass at a concrete listing holding the exempt
name `03-contracts.md` (whose shape fails the pattern) next to an
invalid file. -/
theorem exempt_skipped_witness :
    Event.skipped "03-contracts.md" ∈
      (scan [{ name := "03-contracts.md", isDir := false },
             { name := "README.md", isDir := false }]).events ∧
    "03-contracts.md" ∉
      (scan [{ name := "03-contracts.md", isDir := false },
             { name := "README.md", isDir := false }]).invalid_files ∧
    Event.validEv "03-contracts.md" ∉
      (scan [{ name := "03-contracts.md", isDir := false },
             { name := "README.md", isDir := false }]).events ∧
    Event.invalidEv "03-contracts.md" ∉
      (scan [{ name := "03-contracts.md", isDir := false },
             { name := "README.md", isDir := false }]).events :=
  exempt_skipped _ { name := "03-contracts.md", isDir := false }
    (by decide) (by decide) (by decide)

/-- C7: the invalid-name list of a scan is exactly the names of the
non-directory, non-exempt, pattern-failing children, filtered out of
the listing in listing order (no sorting or reordering). -/
theorem invalid_list_in_listing_order (es : List Entry) :
    (scan es).invalid_files
      = (es.filter fun e =>
          !e.isDir && !decide (e.name ∈ redirect_files)
            && !validate_filename e.name).map Entry.name :=
  scan_invalid_files es

/-! ## Claims about `main` (exit behaviour) -/

/-- C2: whenever the run terminates through `sys.exit`, the code is
`0` exactly when the docs path is a directory and the invalid list
after exemptions is empty, `1` exactly when the path is absent or the
directory scan left at least one invalid name, and no code other than
`0` and `1` occurs. -/
theorem run_exit_code (ps : PathState) (c : Nat) (r : Option ScanResult)
    (h : run ps = RunResult.exited c r) :
    (c = 0 ↔ ∃ es, ps = PathState.dir es ∧ (scan es).invalid_files = []) ∧
    (c = 1 ↔ (ps = PathState.absent ∨
      ∃ es, ps = PathState.dir es ∧ (scan es).invalid_files ≠ [])) ∧
    (c = 0 ∨ c = 1) := by
  cases ps with
  | absent =>
    simp only [run, pathExists, listdir] at h
    obtain ⟨rfl, rfl⟩ : 1 = c ∧ (none : Option ScanResult) = r := by
      refine ⟨?_, ?_⟩ <;> cases h <;> rfl
    refine ⟨by simp, by simp, by simp⟩
  | file =>
    simp only [run, pathExists, listdir] at h
    cases h
  | dir es =>
    simp only [run, pathExists, listdir] at h
    by_cases hinv : (scan es).invalid_files = []
    · rw [if_pos hinv] at h
      obtain ⟨rfl, rfl⟩ : 0 = c ∧ some (scan es) = r := by
        refine ⟨?_, ?_⟩ <;> cases h <;> rfl
      refine ⟨⟨fun _ => ⟨es, rfl, hinv⟩, fun _ => rfl⟩, ?_, by simp⟩
      simp only [Nat.zero_ne_one, false_iff]
      rintro (h' | ⟨es', hes', hne⟩)
      · cases h'
      · cases hes'
        exact hne hinv
    · rw [if_neg hinv] at h
      obtain ⟨rfl, rfl⟩ : 1 = c ∧ some (scan es) = r := by
        refine ⟨?_, ?_⟩ <;> cases h <;> rfl
      refine ⟨?_, ?_, by simp⟩
      · simp only [Nat.one_ne_zero, false_iff]
        rintro ⟨es', hes', hnil⟩
        cases hes'
        exact hinv hnil
      · simp only [true_iff]
        exact Or.inr ⟨es, rfl, hinv⟩

/-- C2 (witness): the characterisation applied to a run over an
existing directory holding one valid file, which exits 0. -/
theorem run_exit_code_witness :
    ((0 : Nat) = 0 ↔ ∃ es,
        PathState.dir [{ name := "ARCH-Foo-Bar.md", isDir := false }]
          = PathState.dir es ∧ (scan es).invalid_files = []) ∧
    ((0 : Nat) = 1 ↔ (PathState.dir [{ name := "ARCH-Foo-Bar.md", isDir := false }]
          = PathState.absent ∨
      ∃ es, PathState.dir [{ name := "ARCH-Foo-Bar.md", isDir := false }]
          = PathState.dir es ∧ (scan es).invalid_files ≠ [])) ∧
    ((0 : Nat) = 0 ∨ (0 : Nat) = 1) :=
  run_exit_code (PathState.dir [{ name := "ARCH-Foo-Bar.md", isDir := false }])
    0 (some (scan [{ name := "ARCH-Foo-Bar.md", isDir := false }]))
    (by decide)

/-- C6: when the resolved docs path is absent, the run exits
immediately with code 1 and performs no scan at all: no scan result
exists, so no per-file classification is made and every counter stays
at its initial zero. -/
theorem missing_dir_exit :
    run PathState.absent = RunResult.exited 1 none ∧
      initResult.total = 0 ∧ initResult.valid = 0 ∧
      initResult.invalid_files = [] ∧ initResult.events = [] :=
  ⟨rfl, rfl, rfl, rfl, rfl⟩

/-- C10: when a non-directory entry sits at the docs path, the
existence check still passes, so the missing-directory exit
(code 1 before the scan) is not taken; instead the listing call
raises and the run ends in an unhandled fault, not in any
`sys.exit`. -/
theorem file_at_path_fault :
    pathExists PathState.file = true ∧
      run PathState.file = RunResult.fault ∧
      ∀ (c : Nat) (r : Option ScanResult),
        run PathState.file ≠ RunResult.exited c r :=
  ⟨rfl, rfl, fun _ _ h => RunResult.noConfusion h⟩

/-- C10 (witness): the no-exit part at the concrete code 1, showing
the missing-directory exit is not produced. -/
theorem file_at_path_fault_witness :
    run PathState.file ≠ RunResult.exited 1 none :=
  file_at_path_fault.2.2 1 none

end DocsNaming
